import Mathlib

/-!
Verification of the deckjs playing-card library (src/mod.ts) against its
natural-language specification.

Modelling conventions (shallow embedding):
* JS strings are Lean `String`s; token-level character work happens on the
  underlying `List Char` (`String.data`).
* JS numbers appearing as card ids are natural numbers (`Nat`); ranks and
  draw amounts, which involve subtraction and `-1`, are integers (`Int`).
* A JS value that may be `undefined` is an `Option`; a computation that may
  throw a `TypeError` is an `Option` at the outer level (`none` = throw).
* The deck instance state (`private deck: Card[]`) is an explicit
  `List Card` threaded through the operations.
* The external `lodash.shuffle` dependency is not part of this repository;
  per the spec it is a uniform-random permutation primitive.  Theorems about
  shuffled decks quantify over every function satisfying that contract
  (`∀ l, sh l ~ l`).
-/

/-- `Suit` record from src/mod.ts: `{ value, color, utf }`. -/
structure Suit where
  value : String
  color : String
  utf : String
deriving DecidableEq

/-- `Card` record from src/mod.ts: `{ id, value, rank, suit }`, as produced by
the `Deck` constructor (all fields present and defined). -/
structure Card where
  id : Nat
  value : String
  rank : Int
  suit : Suit
deriving DecidableEq

/-- Result type of `Deck.parse`: the object literal built in `parse` is cast
`as Card`, but at runtime `id` may be `NaN` (modelled `none`), `value` may be
`undefined` (modelled `none`, when the card part of the token is empty) and
`suit` may be `undefined` (modelled `none`, when no catalog suit matches). -/
structure ParsedCard where
  id : Option Nat
  value : Option String
  rank : Int
  suit : Option Suit
deriving DecidableEq

/-- A JS object in card position, as inspected by `Deck.validate` /
`Deck.getCardText` / `Deck.getSuitText` / `Deck.getCardDescription`.
Each field is `none` when the key is absent from the object.  The `suit`
field additionally distinguishes a present-but-undefined value
(`some none`, as produced by `parse` on an unknown suit) from a present
suit record (`some (some s)`); a junk object such as `{}` in suit position
behaves exactly like a suit record whose `value` misses every catalog key,
and is represented by such a record. -/
structure CardObj where
  id : Option Int
  value : Option String
  rank : Option Int
  suit : Option (Option Suit)
deriving DecidableEq

namespace Deck

/-- `Deck.CARDS`: the 13 rank labels, in catalog order. -/
def CARDS : List String :=
  ["2", "3", "4", "5", "6", "7", "8", "9", "10", "J", "Q", "K", "A"]

/-- `Deck.CARDS_TEXT`: rank label → display word.  JS object indexing yields
`undefined` (`none`) for any other key. -/
def CARDS_TEXT : String → Option String := fun v =>
  match v with
  | "2" => some "Two"
  | "3" => some "Three"
  | "4" => some "Four"
  | "5" => some "Five"
  | "6" => some "Six"
  | "7" => some "Seven"
  | "8" => some "Eight"
  | "9" => some "Nine"
  | "10" => some "Ten"
  | "J" => some "Jack"
  | "Q" => some "Queen"
  | "K" => some "King"
  | "A" => some "Ace"
  | _ => none

/-- `Deck.SUITS`: the 4 suit records, in catalog order S, H, D, C. -/
def SUITS : List Suit :=
  [⟨"S", "black", "♠"⟩,
   ⟨"H", "red", "♥"⟩,
   ⟨"D", "red", "♦"⟩,
   ⟨"C", "black", "♣"⟩]

/-- `Deck.SUITS_COLOR`. -/
def SUITS_COLOR : List String := ["black", "red", "red", "black"]

/-- `Deck.SUITS_UTF`. -/
def SUITS_UTF : List String := ["♠", "♥", "♦", "♣"]

/-- `Deck.SUITS_TEXT`: suit value → display word; `undefined` (`none`)
for any other key. -/
def SUITS_TEXT : String → Option String := fun v =>
  match v with
  | "S" => some "Spades"
  | "H" => some "Hearts"
  | "D" => some "Diamonds"
  | "C" => some "Clubs"
  | _ => none

/-- `Deck.BLANK_CARD_UTF`. -/
def BLANK_CARD_UTF : String := "★"

/-- Inner loop of the constructor: for `i` over the rank labels, push
`{ id: this.id++, value: CARDS[i], rank: i + 1, suit: {...suit} }`.
The list argument walks the remainder of `CARDS`, `idc` is the running
`this.id` counter (returned after the loop) and `i` the loop index. -/
def fillRanks (suit : Suit) : List String → Nat → Nat → List Card × Nat
  | [], idc, _ => ([], idc)
  | v :: vs, idc, i =>
    let rest := fillRanks suit vs (idc + 1) (i + 1)
    (⟨idc, v, (i : Int) + 1, suit⟩ :: rest.1, rest.2)

/-- Outer loop of the constructor: for `j` over the suit catalog, run the
inner loop, threading the `this.id` counter. -/
def fillSuits : List Suit → Nat → List Card
  | [], _ => []
  | s :: ss, idc =>
    let inner := fillRanks s CARDS idc 0
    inner.1 ++ fillSuits ss inner.2

/-- The freshly filled 52-card deck, before the optional shuffle
(constructor body with `preShuffle = false`). -/
def newDeck : List Card := fillSuits SUITS 0

/-- `new Deck(preShuffle)`: fill the deck, then shuffle it when asked.
`sh` stands for the external `lodash.shuffle` primitive (see module
comment); theorems assume only its permutation contract. -/
def new (sh : List Card → List Card) (preShuffle : Bool) : List Card :=
  if preShuffle then sh newDeck else newDeck

/-- The loop body of `getCards`: `amount` times, `shift()` the first card off
the deck and push it onto the result.  The empty-deck case (where `shift()`
would yield `undefined`) is unreachable under the guard in `getCards`, which
keeps strictly more than `amount` cards available. -/
def drawLoop : Nat → List Card → List Card × List Card
  | 0, d => ([], d)
  | _ + 1, [] => ([], [])
  | n + 1, c :: d =>
    let rest := drawLoop n d
    (c :: rest.1, rest.2)

/-- `deck.getCards(amount)`, with the instance state passed explicitly:
returns the pair (returned cards, deck state afterwards).  Guard from the
source: `amount >= 1 && amount < this.deck.length - amount`. -/
def getCards (deck : List Card) (amount : Int) : List Card × List Card :=
  if 1 ≤ amount ∧ amount < (deck.length : Int) - amount then
    drawLoop amount.toNat deck
  else
    ([], deck)

/-- The comparator `(a, b) => b.rank - a.rank`: `a` may be placed before `b`
exactly when the comparator is ≤ 0, i.e. `b.rank ≤ a.rank`. -/
def cmpLe (a b : Card) : Prop := b.rank ≤ a.rank

instance : DecidableRel cmpLe := fun a b => inferInstanceAs (Decidable (b.rank ≤ a.rank))

instance : IsTotal Card cmpLe := ⟨fun a b => le_total b.rank a.rank⟩

instance : IsTrans Card cmpLe := ⟨fun _ _ _ hab hbc => le_trans hbc hab⟩

/-- `deck.sort(cards)` = `cards.sort((a, b) => b.rank - a.rank)`.
ECMAScript `Array.prototype.sort` with a consistent comparator is required
to produce the sorted *stable* reordering of its input, which is the unique
permutation that is sorted for `cmpLe` and keeps equal-rank cards in input
order; `List.insertionSort` computes exactly that permutation. -/
def sort (cards : List Card) : List Card :=
  List.insertionSort cmpLe cards

/-- The `sort` *method* viewed with the instance state: its body never reads
or writes `this.deck`, so the state passes through unchanged next to the
returned reordering of the argument. -/
def sortMethod (deck : List Card) (cards : List Card) : List Card × List Card :=
  (deck, sort cards)

/-- JS `Array.prototype.indexOf` on a string array: first index of `v`,
or `-1` when absent. -/
def jsIndexOf : List String → String → Int
  | [], _ => -1
  | a :: as, v =>
    if a = v then 0
    else
      let r := jsIndexOf as v
      if r = -1 then -1 else r + 1

/-- The rank/value consistency invariant: `rank == CARDS.indexOf(value) + 1`. -/
def rankOk (c : Card) : Prop := c.rank = jsIndexOf CARDS c.value + 1

instance (c : Card) : Decidable (rankOk c) :=
  inferInstanceAs (Decidable (c.rank = jsIndexOf CARDS c.value + 1))

/-- The 52 possible (value, suit value) pairs, in catalog fill order. -/
def allPairs : List (String × String) :=
  (SUITS.map (fun s => CARDS.map (fun v => (v, s.value)))).flatten

/-- `Object.keys(playingCard)` for a card-position object: the present keys,
in the insertion order used by the constructor and by `parse`. -/
def keysOf (o : CardObj) : List String :=
  (if o.id.isSome then ["id"] else []) ++ (if o.value.isSome then ["value"] else [])
    ++ (if o.rank.isSome then ["rank"] else []) ++ (if o.suit.isSome then ["suit"] else [])

/-- `Deck.validate(playingCard)`: collect `Object.keys` and test that the
list `includes` each of `id`, `value`, `rank`, `suit`. -/
def validate (o : CardObj) : Bool :=
  let cardProps := keysOf o
  cardProps.contains "id" && cardProps.contains "value"
    && cardProps.contains "rank" && cardProps.contains "suit"

/-- The ten decimal digit characters. -/
def digitChars : List Char := ['0', '1', '2', '3', '4', '5', '6', '7', '8', '9']

/-- The decimal digit character for `d < 10`. -/
def digitChar (d : Nat) : Char := digitChars.getD d '0'

/-- Decimal rendering of a natural number, most significant digit first,
accumulator style; `fuel` dominates the number of digits (any
`fuel > n ≥ n.digits` works, and `natChars` passes `n + 1`).  Models the JS
template-literal rendering of an integer id. -/
def natCharsAux : Nat → Nat → List Char → List Char
  | 0, _, acc => acc
  | fuel + 1, n, acc =>
    if n < 10 then digitChar (n % 10) :: acc
    else natCharsAux fuel (n / 10) (digitChar (n % 10) :: acc)

/-- Decimal rendering of a card id, as interpolated by `stringify`. -/
def natChars (n : Nat) : List Char := natCharsAux (n + 1) n []

/-- Accumulate the value of the maximal leading run of digit characters. -/
def parseDigits : List Char → Nat → Nat
  | [], acc => acc
  | c :: cs, acc => if c.isDigit then parseDigits cs (acc * 10 + (c.toNat - 48)) else acc

/-- `parseInt(s)` restricted to the shapes produced by the token format:
`none` models the `NaN` result when the string does not start with a digit
(the optional sign/whitespace/radix prefixes of full `parseInt` never occur
in card tokens). -/
def parseIntJs (s : List Char) : Option Nat :=
  match s with
  | [] => none
  | c :: _ => if c.isDigit then some (parseDigits s 0) else none

/-- `s.split(sep)` for a single-character separator, on the character list
of the string. -/
def splitChar (sep : Char) : List Char → List (List Char)
  | [] => [[]]
  | c :: cs =>
    if c = sep then [] :: splitChar sep cs
    else
      match splitChar sep cs with
      | [] => [[c]]
      | l :: ls => (c :: l) :: ls

/-- One token of `Deck.stringify`: the template literal
`id`, `#`, `card.value`, `card.suit.value`, with the numeric id rendered in
decimal. -/
def stringifyToken (card : Card) : String :=
  String.mk (natChars card.id ++ '#' :: (card.value.data ++ card.suit.value.data))

/-- `Deck.stringify(cards)`. -/
def stringify (cards : List Card) : List String := cards.map stringifyToken

/-- The `suitValue` local of `parse`: `card[2]` when the card part has
length 3, else `card[1]`; indexing out of range gives `undefined` (`none`),
and a successful JS index yields a one-character string. -/
def suitValueOf (cardStr : List Char) : Option String :=
  (if cardStr.length = 3 then cardStr[2]? else cardStr[1]?).map (fun ch => String.mk [ch])

/-- The object literal built by `parse` from the two parts of a split token:
`value` is `"10"` on the length-3 path, else `card[0]`; `rank` is
`CARDS.indexOf(value) + 1` (`indexOf` of `undefined` is `-1`); `suit` is
`SUITS.find(s => s.value === suitValue)`, `undefined` (`none`) when no
catalog suit matches. -/
def parseParts (idStr cardStr : List Char) : ParsedCard :=
  let value : Option String :=
    if cardStr.length = 3 then some "10" else cardStr[0]?.map (fun ch => String.mk [ch])
  let rank : Int := (match value with | some v => jsIndexOf CARDS v | none => -1) + 1
  let suit : Option Suit := SUITS.find? (fun s => suitValueOf cardStr == some s.value)
  { id := parseIntJs idStr, value := value, rank := rank, suit := suit }

/-- One token of `Deck.parse`: `const [id, card] = c.split("#")` takes the
first two parts (extra parts are dropped); when the split yields a single
part, `card` is `undefined` and `card.length` throws a `TypeError`
(modelled `none`). -/
def parseToken (c : String) : Option ParsedCard :=
  match splitChar '#' c.data with
  | idStr :: cardStr :: _ => some (parseParts idStr cardStr)
  | _ => none

/-- `Deck.parse(cards)`: `Array.prototype.map`, with an exception inside the
callback aborting the whole call (`none`). -/
def parse (tokens : List String) : Option (List ParsedCard) :=
  tokens.mapM parseToken

/-- The value-level image of a constructor-built card inside `parse`'s result
type: all fields present and defined. -/
def toParsed (c : Card) : ParsedCard :=
  ⟨some c.id, some c.value, c.rank, some c.suit⟩

/-- A card is valid when its value is a catalog rank label, its rank is the
label's catalog position + 1, and its suit is one of the 4 catalog records. -/
def validCard (c : Card) : Prop :=
  c.value ∈ CARDS ∧ c.rank = jsIndexOf CARDS c.value + 1 ∧ c.suit ∈ SUITS

instance (c : Card) : Decidable (validCard c) :=
  inferInstanceAs (Decidable (_ ∧ _ ∧ _))

/-- JS template-literal conversion of a string-or-undefined value. -/
def jsStr : Option String → String
  | none => "undefined"
  | some s => s

/-- `Deck.getCardText`: empty string when invalid, else the object lookup
`CARDS_TEXT[playingCard.value]` (`none` = the lookup produced `undefined`;
when `validate` holds the `value` key is present, and the unreachable absent
case coincides with the `undefined` JS lookup result). -/
def getCardText (o : CardObj) : Option String :=
  if validate o = false then some ""
  else
    match o.value with
    | some v => CARDS_TEXT v
    | none => none

/-- `Deck.getSuitText`: empty string when invalid, else
`SUITS_TEXT[playingCard.suit.value]`.  The outer `none` models the
`TypeError` thrown by `playingCard.suit.value` when the suit is undefined. -/
def getSuitText (o : CardObj) : Option (Option String) :=
  if validate o = false then some (some "")
  else
    match o.suit with
    | some (some s) => some (SUITS_TEXT s.value)
    | _ => none

/-- `Deck.getCardDescription`: empty string when invalid, else the template
literal joining `getCardText` and `getSuitText` with `" of "`; an exception
from `getSuitText` propagates (`none`). -/
def getCardDescription (o : CardObj) : Option String :=
  if validate o = false then some ""
  else
    match getSuitText o with
    | none => none
    | some suitText => some (jsStr (getCardText o) ++ " of " ++ jsStr suitText)

end Deck

namespace Deck

theorem digitChar_mem_spec :
    ∀ d ∈ List.range 10, (digitChar d).isDigit = true ∧ (digitChar d).toNat - 48 = d := by
  decide

theorem digitChar_spec (d : Nat) (h : d < 10) :
    (digitChar d).isDigit = true ∧ (digitChar d).toNat - 48 = d :=
  digitChar_mem_spec d (List.mem_range.mpr h)

theorem natCharsAux_spec :
    ∀ n : Nat, ∀ (fuel : Nat) (acc : List Char), n < fuel →
    ∃ l : List Char, natCharsAux fuel n acc = l ++ acc ∧ l ≠ [] ∧
      (∀ c ∈ l, c.isDigit = true) ∧
      ∀ (acc2 : List Char) (acc0 : Nat),
        parseDigits (l ++ acc2) acc0 = parseDigits acc2 (acc0 * 10 ^ l.length + n) := by
  intro n
  induction n using Nat.strong_induction_on with
  | _ n ih =>
    intro fuel acc hfuel
    obtain ⟨f, rfl⟩ : ∃ f, fuel = f + 1 := ⟨fuel - 1, by omega⟩
    by_cases h10 : n < 10
    · refine ⟨[digitChar n], ?_, by simp, ?_, ?_⟩
      · simp [natCharsAux, h10, Nat.mod_eq_of_lt h10]
      · intro c hc
        rw [List.mem_singleton] at hc
        subst hc
        exact (digitChar_spec n h10).1
      · intro acc2 acc0
        have hd := digitChar_spec n h10
        simp [parseDigits, hd.1, hd.2]
    · have hn0 : 0 < n := by omega
      have hdiv : n / 10 < n := Nat.div_lt_self hn0 (by omega)
      have hdn : n % 10 < 10 := Nat.mod_lt _ (by omega)
      obtain ⟨l, he, hne, hdig, hp⟩ :=
        ih (n / 10) hdiv f (digitChar (n % 10) :: acc) (by omega)
      have hd := digitChar_spec (n % 10) hdn
      refine ⟨l ++ [digitChar (n % 10)], ?_, by simp, ?_, ?_⟩
      · simp only [natCharsAux, if_neg h10, he, List.append_assoc, List.singleton_append]
      · intro c hc
        rcases List.mem_append.mp hc with h1 | h2
        · exact hdig c h1
        · rw [List.mem_singleton] at h2
          subst h2
          exact hd.1
      · intro acc2 acc0
        rw [List.append_assoc, List.singleton_append, hp (digitChar (n % 10) :: acc2) acc0]
        have hstep : parseDigits (digitChar (n % 10) :: acc2) (acc0 * 10 ^ l.length + n / 10)
            = parseDigits acc2 ((acc0 * 10 ^ l.length + n / 10) * 10 + (n % 10)) := by
          simp [parseDigits, hd.1, hd.2]
        rw [hstep]
        congr 1
        rw [List.length_append, List.length_singleton, Nat.add_mul, pow_succ, ← Nat.mul_assoc,
          Nat.add_assoc]
        congr 1
        omega

theorem natChars_spec (n : Nat) :
    Deck.natChars n ≠ [] ∧ (∀ c ∈ Deck.natChars n, c.isDigit = true) ∧
      ∀ (acc2 : List Char) (acc0 : Nat),
        parseDigits (natChars n ++ acc2) acc0 =
          parseDigits acc2 (acc0 * 10 ^ (natChars n).length + n) := by
  obtain ⟨l, he, hne, hdig, hp⟩ := natCharsAux_spec n (n + 1) [] (by omega)
  rw [List.append_nil] at he
  rw [show natChars n = l from he]
  exact ⟨hne, hdig, hp⟩

theorem parseIntJs_natChars (n : Nat) : parseIntJs (natChars n) = some n := by
  obtain ⟨hne, hdig, hp⟩ := natChars_spec n
  obtain ⟨c, cs, hcons⟩ : ∃ c cs, natChars n = c :: cs := by
    cases h : natChars n with
    | nil => exact absurd h hne
    | cons c cs => exact ⟨c, cs, rfl⟩
  have hc : c.isDigit = true := hdig c (by rw [hcons]; exact List.mem_cons_self c cs)
  have hval : parseDigits (natChars n) 0 = n := by
    have := hp [] 0
    rw [List.append_nil] at this
    simpa using this
  rw [hcons] at hval ⊢
  simp [parseIntJs, hc, hval]

theorem natChars_no_hash (n : Nat) : '#' ∉ natChars n := by
  intro h
  have := (natChars_spec n).2.1 '#' h
  simp at this

theorem splitChar_of_not_mem {sep : Char} :
    ∀ {l : List Char}, sep ∉ l → splitChar sep l = [l] := by
  intro l
  induction l with
  | nil => intro _; rfl
  | cons c cs ih =>
    intro h
    rw [List.mem_cons] at h
    push_neg at h
    rw [splitChar.eq_def]
    simp only [ih h.2]
    rw [if_neg (Ne.symm h.1)]

theorem splitChar_append {sep : Char} :
    ∀ (a b : List Char), sep ∉ a →
      splitChar sep (a ++ sep :: b) = a :: splitChar sep b := by
  intro a
  induction a with
  | nil =>
    intro b _
    rw [List.nil_append, splitChar.eq_def]
    simp
  | cons c cs ih =>
    intro b h
    rw [List.mem_cons] at h
    push_neg at h
    rw [List.cons_append, splitChar.eq_def]
    simp only [ih b h.2]
    rw [if_neg (Ne.symm h.1)]

theorem drawLoop_take_drop :
    ∀ (n : Nat) (d : List Card), n ≤ d.length → drawLoop n d = (d.take n, d.drop n)
  | 0, d, _ => by simp [drawLoop]
  | n + 1, [], h => by simp at h
  | n + 1, c :: d, h => by
    have := drawLoop_take_drop n d (by simpa using h)
    simp [drawLoop, this]

theorem filter_orderedInsert (x : Card) (k : Int) :
    ∀ l : List Card,
      (List.orderedInsert cmpLe x l).filter (fun c => decide (c.rank = k)) =
        if x.rank = k then x :: l.filter (fun c => decide (c.rank = k))
        else l.filter (fun c => decide (c.rank = k)) := by
  intro l
  induction l with
  | nil =>
    by_cases hx : x.rank = k <;> simp [List.orderedInsert, List.filter_cons, hx]
  | cons b l ih =>
    by_cases hr : cmpLe x b
    · rw [show List.orderedInsert cmpLe x (b :: l) = x :: b :: l from by
        simp [List.orderedInsert, hr]]
      by_cases hx : x.rank = k <;> simp [List.filter_cons, hx]
    · have hlt : x.rank < b.rank := not_le.mp hr
      rw [show List.orderedInsert cmpLe x (b :: l) = b :: List.orderedInsert cmpLe x l from by
        simp [List.orderedInsert, hr]]
      by_cases hb : b.rank = k
      · have hx : ¬ x.rank = k := by omega
        simp [List.filter_cons, hb, hx, ih]
      · by_cases hx : x.rank = k <;> simp [List.filter_cons, hb, hx, ih]

theorem filter_sort (cards : List Card) (k : Int) :
    (sort cards).filter (fun c => decide (c.rank = k)) =
      cards.filter (fun c => decide (c.rank = k)) := by
  induction cards with
  | nil => rfl
  | cons a l ih =>
    have ih2 : (List.insertionSort cmpLe l).filter (fun c => decide (c.rank = k)) =
        l.filter (fun c => decide (c.rank = k)) := ih
    show (List.orderedInsert cmpLe a (List.insertionSort cmpLe l)).filter _ = _
    rw [filter_orderedInsert]
    by_cases ha : a.rank = k <;> simp [List.filter_cons, ha, ih2]

theorem stringMk_data (s : String) : String.mk s.data = s := rfl

theorem cards_no_hash : ∀ v ∈ CARDS, '#' ∉ v.data := by decide

theorem suits_no_hash : ∀ s ∈ SUITS, '#' ∉ s.value.data := by decide

theorem suits_val_len : ∀ s ∈ SUITS, s.value.data.length = 1 := by decide

theorem cards_len_one : ∀ v ∈ CARDS, v ≠ "10" → v.data.length = 1 := by decide

theorem suits_find : ∀ s0 ∈ SUITS,
    List.find? (fun s => s0.value == s.value) SUITS = some s0 := by
  decide

theorem parseToken_stringifyToken (c : Card) (h : validCard c) :
    parseToken (stringifyToken c) = some (toParsed c) := by
  obtain ⟨hv, hr, hs⟩ := h
  obtain ⟨sc, hsc⟩ := List.length_eq_one.mp (suits_val_len c.suit hs)
  have hsval : String.mk [sc] = c.suit.value := by rw [← hsc]
  have hno2 : '#' ∉ c.value.data := cards_no_hash c.value hv
  have hno3 : '#' ∉ c.suit.value.data := suits_no_hash c.suit hs
  have hnocard : '#' ∉ c.value.data ++ c.suit.value.data := by
    intro hm
    rcases List.mem_append.mp hm with h1 | h2
    · exact hno2 h1
    · exact hno3 h2
  have hsplit : splitChar '#' (stringifyToken c).data =
      [natChars c.id, c.value.data ++ c.suit.value.data] := by
    show splitChar '#' (natChars c.id ++ '#' :: (c.value.data ++ c.suit.value.data)) = _
    rw [splitChar_append _ _ (natChars_no_hash c.id), splitChar_of_not_mem hnocard]
  rw [parseToken, hsplit]
  rw [hsc]
  by_cases h10 : c.value = "10"
  · rw [show c.value.data = ['1', '0'] from by rw [h10]]
    simp only [parseParts, suitValueOf, toParsed, parseIntJs_natChars]
    simp [hsval, suits_find c.suit hs, ← h10, hr]
  · obtain ⟨vc, hvc⟩ := List.length_eq_one.mp (cards_len_one c.value hv h10)
    have hvval : String.mk [vc] = c.value := by rw [← hvc]
    rw [hvc]
    simp only [parseParts, suitValueOf, toParsed, parseIntJs_natChars]
    simp [hsval, hvval, suits_find c.suit hs, hr]

/-- Claim C1: for every sequence of valid cards (id a non-negative integer,
value one of the 13 rank labels, rank equal to the label's catalog
position + 1, suit one of the 4 catalog suit records),
`Deck.parse(Deck.stringify(cards))` reproduces the cards (as values in
parse's result type, every field present and defined), covering both the
token-length-3 path for value "10" and the token-length-2 path for
single-character values. -/
theorem parse_stringify_roundtrip :
    ∀ cards : List Card, (∀ c ∈ cards, validCard c) →
      parse (stringify cards) = some (cards.map toParsed) := by
  intro cards
  induction cards with
  | nil => intro _; rfl
  | cons c cs ih =>
    intro h
    have hc := parseToken_stringifyToken c (h c (List.mem_cons_self c cs))
    have hcs : (cs.map stringifyToken).mapM parseToken = some (cs.map toParsed) :=
      ih (fun x hx => h x (List.mem_cons_of_mem c hx))
    simp only [stringify, List.map_cons, parse, List.mapM_cons]
    rw [hc, hcs]
    rfl

/-- Witness for C1 at a concrete two-card hand covering both token lengths. -/
theorem parse_stringify_roundtrip_witness :
    parse (stringify [⟨23, "A", 13, ⟨"S", "black", "♠"⟩⟩, ⟨4, "10", 9, ⟨"D", "red", "♦"⟩⟩]) =
      some (([⟨23, "A", 13, ⟨"S", "black", "♠"⟩⟩,
        ⟨4, "10", 9, ⟨"D", "red", "♦"⟩⟩] : List Card).map toParsed) :=
  parse_stringify_roundtrip _ (by decide)

/-- Claim C2: for every shuffle primitive satisfying the permutation contract
and every value of the preShuffle flag, the constructed deck holds exactly 52
cards, its (value, suit value) pairs are exactly the 52 catalog combinations
(each once), its ids are exactly 0..51 (no duplicates); with preShuffle false
the deck is in nested catalog order (suits S,H,D,C outer, ranks "2".."A"
inner) with ids 0..51 assigned in fill order, and with preShuffle true the
deck is a permutation of that same multiset. -/
theorem new_deck_spec : ∀ (sh : List Card → List Card) (preShuffle : Bool),
    (∀ l, (sh l).Perm l) →
    (new sh preShuffle).length = 52
    ∧ ((new sh preShuffle).map (fun c => (c.value, c.suit.value))).Perm allPairs
    ∧ allPairs.Nodup
    ∧ ((new sh preShuffle).map (fun c => c.id)).Perm (List.range 52)
    ∧ (new sh preShuffle).Perm newDeck
    ∧ new sh false = newDeck
    ∧ newDeck = (List.range 52).map (fun i =>
        ⟨i, CARDS.getD (i % 13) "", ((i % 13 : Nat) : Int) + 1,
          SUITS.getD (i / 13) ⟨"", "", ""⟩⟩) := by
  intro sh preShuffle hsh
  have hperm : (new sh preShuffle).Perm newDeck := by
    cases preShuffle
    · exact List.Perm.refl _
    · exact hsh newDeck
  refine ⟨?_, ?_, by decide, ?_, hperm, rfl, by decide⟩
  · rw [hperm.length_eq]; decide
  · have he : newDeck.map (fun c => (c.value, c.suit.value)) = allPairs := by decide
    exact he ▸ hperm.map _
  · have he : newDeck.map (fun c => c.id) = List.range 52 := by decide
    exact he ▸ hperm.map _

/-- Witness for C2 with a concrete permutation function (reversal) and
preShuffle true. -/
theorem new_deck_spec_witness :
    (new (fun l => l.reverse) true).length = 52 :=
  (new_deck_spec (fun l => l.reverse) true (fun l => l.reverse_perm)).1

/-- Claim C3: for every deck state and every integer amount, `getCards`
removes and returns the first `amount` cards in positional order exactly when
`amount >= 1` and `amount < remainingLength - amount`; in every other case
(including `amount <= 0` and drawing half or more of the deck) it returns the
empty sequence and leaves the deck unchanged.  On the 52-card deck:
`getCards(26)` returns [] leaving 52 cards, `getCards(25)` returns the first
25 leaving 27, and `getCards(0)` / `getCards(-1)` return [] unchanged. -/
theorem getCards_spec :
    (∀ (d : List Card) (a : Int),
      getCards d a =
        if 1 ≤ a ∧ a < (d.length : Int) - a then (d.take a.toNat, d.drop a.toNat)
        else ([], d))
    ∧ getCards newDeck 26 = ([], newDeck)
    ∧ (getCards newDeck 25).1 = newDeck.take 25
    ∧ (getCards newDeck 25).1.length = 25
    ∧ (getCards newDeck 25).2.length = 27
    ∧ getCards newDeck 0 = ([], newDeck)
    ∧ getCards newDeck (-1) = ([], newDeck) := by
  refine ⟨?_, by decide, by decide, by decide, by decide, by decide, by decide⟩
  intro d a
  by_cases hg : 1 ≤ a ∧ a < (d.length : Int) - a
  · simp only [getCards, if_pos hg]
    exact drawLoop_take_drop a.toNat d (by omega)
  · simp only [getCards, if_neg hg]

/-- Claim C4: `sort` returns a permutation of its input, ordered by
descending rank (each card's rank is at least the rank of every later card),
and cards of equal rank keep their relative input order (stability, stated
as: filtering any rank class commutes with sorting); on inputs with ranks
[3,1,13,7] the output ranks are [13,7,3,1]. -/
theorem sort_spec :
    (∀ cards : List Card,
      (sort cards).Perm cards
      ∧ List.Sorted cmpLe (sort cards)
      ∧ ∀ k : Int, (sort cards).filter (fun c => decide (c.rank = k)) =
          cards.filter (fun c => decide (c.rank = k)))
    ∧ ((sort [⟨0, "4", 3, ⟨"S", "black", "♠"⟩⟩, ⟨1, "2", 1, ⟨"H", "red", "♥"⟩⟩,
        ⟨2, "A", 13, ⟨"D", "red", "♦"⟩⟩, ⟨3, "8", 7, ⟨"C", "black", "♣"⟩⟩]).map
          (fun c => c.rank)) = [13, 7, 3, 1] := by
  refine ⟨?_, by decide⟩
  intro cards
  exact ⟨List.perm_insertionSort cmpLe cards, List.sorted_insertionSort cmpLe cards,
    fun k => filter_sort cards k⟩

/-- Claim C5: every card produced by construction satisfies
`rank = CARDS.indexOf(value) + 1`, and the property is preserved by shuffle
(any permutation primitive), by `sort` and by `getCards` (both the drawn
cards and the remaining deck), since no operation rewrites a card's
fields. -/
theorem rank_consistency :
    (∀ c ∈ newDeck, rankOk c)
    ∧ (∀ (sh : List Card → List Card) (preShuffle : Bool), (∀ l, (sh l).Perm l) →
        ∀ c ∈ new sh preShuffle, rankOk c)
    ∧ (∀ cards : List Card, (∀ c ∈ cards, rankOk c) → ∀ c ∈ sort cards, rankOk c)
    ∧ (∀ (cards : List Card) (a : Int), (∀ c ∈ cards, rankOk c) →
        (∀ c ∈ (getCards cards a).1, rankOk c) ∧ (∀ c ∈ (getCards cards a).2, rankOk c)) := by
  have hbase : ∀ c ∈ newDeck, rankOk c := by decide
  refine ⟨hbase, ?_, ?_, ?_⟩
  · intro sh preShuffle hsh c hc
    have hperm : (new sh preShuffle).Perm newDeck := by
      cases preShuffle
      · exact List.Perm.refl _
      · exact hsh newDeck
    exact hbase c (hperm.mem_iff.mp hc)
  · intro cards h c hc
    exact h c ((List.mem_insertionSort cmpLe).mp hc)
  · intro cards a h
    by_cases hg : 1 ≤ a ∧ a < (cards.length : Int) - a
    · constructor <;> intro c hc <;>
        simp only [getCards, if_pos hg, drawLoop_take_drop a.toNat cards (by omega)] at hc
      · exact h c (List.take_subset _ _ hc)
      · exact h c (List.drop_subset _ _ hc)
    · constructor <;> intro c hc <;> simp only [getCards, if_neg hg] at hc
      · exact absurd hc (List.not_mem_nil c)
      · exact h c hc

/-- Witness for C5: rank consistency propagated through `sort` on a concrete
singleton hand. -/
theorem rank_consistency_witness :
    rankOk ⟨7, "5", 4, ⟨"H", "red", "♥"⟩⟩ :=
  rank_consistency.2.2.1 [⟨7, "5", 4, ⟨"H", "red", "♥"⟩⟩] (by decide)
    ⟨7, "5", 4, ⟨"H", "red", "♥"⟩⟩ (by decide)

/-- Claim C6: `validate` is true exactly when all four keys id, value, rank,
suit are present, regardless of the semantic correctness of the stored
values: the spec's example with value "Z", rank 99 and a junk suit validates
true, and dropping any single key makes it false. -/
theorem validate_shape_iff :
    (∀ o : CardObj, validate o = true ↔
      (o.id.isSome = true ∧ o.value.isSome = true ∧ o.rank.isSome = true
        ∧ o.suit.isSome = true))
    ∧ validate ⟨some 1, some "Z", some 99, some (some ⟨"", "", ""⟩)⟩ = true
    ∧ validate ⟨none, some "Z", some 99, some (some ⟨"", "", ""⟩)⟩ = false
    ∧ validate ⟨some 1, none, some 99, some (some ⟨"", "", ""⟩)⟩ = false
    ∧ validate ⟨some 1, some "Z", none, some (some ⟨"", "", ""⟩)⟩ = false
    ∧ validate ⟨some 1, some "Z", some 99, none⟩ = false := by
  refine ⟨?_, by decide, by decide, by decide, by decide, by decide⟩
  rintro ⟨i, v, r, s⟩
  cases i <;> cases v <;> cases r <;> cases s <;> simp [validate, keysOf]

/-- Claim C7: for every token whose computed suit character matches no
catalog suit record, `parse` returns normally (no exception) and the
resulting card's suit field is undefined (`none`), as on the concrete token
"23#4X". -/
theorem parse_unknown_suit :
    (∀ idStr cardStr : List Char,
      (∀ s ∈ SUITS, suitValueOf cardStr ≠ some s.value) →
      (parseParts idStr cardStr).suit = none)
    ∧ parse ["23#4X"] = some [⟨some 23, some "4", 3, none⟩] := by
  refine ⟨?_, by decide⟩
  intro idStr cardStr h
  simp only [parseParts]
  rw [List.find?_eq_none]
  intro s hs hbeq
  exact h s hs (by simpa [beq_iff_eq] using hbeq)

/-- Witness for C7 on the concrete split parts of the token "99#QX". -/
theorem parse_unknown_suit_witness :
    (parseParts ("99".data) ("QX".data)).suit = none :=
  parse_unknown_suit.1 _ _ (by decide)

/-- Claim C8 counterexample: at the claim's literal example object
`(value "K", suit (value "H"))`, which lacks the id and rank keys,
`validate` fails and `getCardDescription` returns the empty string, not
"King of Hearts"; the claim as stated is therefore false. -/
theorem getCardDescription_partial_counterexample :
    getCardDescription ⟨none, some "K", none, some (some ⟨"H", "red", "♥"⟩)⟩ = some ""
    ∧ getCardDescription ⟨none, some "K", none, some (some ⟨"H", "red", "♥"⟩)⟩ ≠
        some "King of Hearts" := by
  decide

/-- Claim C8 (amended): `getCardDescription` returns the empty string when
`validate` fails, and otherwise the string `cardText ++ " of " ++ suitText`
built from the rank display text for the card's value and the suit display
text for the card's suit value; in particular, on a card with all four keys
present whose value is "K" and suit value "H" it returns "King of Hearts". -/
theorem getCardDescription_spec :
    (∀ o : CardObj, validate o = false → getCardDescription o = some "")
    ∧ (∀ (o : CardObj) (ct st : String), validate o = true →
        getCardText o = some ct → getSuitText o = some (some st) →
        getCardDescription o = some (ct ++ " of " ++ st))
    ∧ getCardDescription ⟨some 1, some "K", some 12, some (some ⟨"H", "red", "♥"⟩)⟩ =
        some "King of Hearts" := by
  refine ⟨?_, ?_, by decide⟩
  · intro o h
    simp [getCardDescription, h]
  · intro o ct st hv hct hst
    simp [getCardDescription, hv, hst, hct, jsStr]

/-- Witness for C8 (amended) at a concrete fully-keyed card. -/
theorem getCardDescription_spec_witness :
    getCardDescription ⟨some 0, some "Q", some 11, some (some ⟨"S", "black", "♠"⟩)⟩ =
      some ("Queen" ++ " of " ++ "Spades") :=
  getCardDescription_spec.2.1 _ "Queen" "Spades" (by decide) (by decide) (by decide)

/-- Claim C10: for every instance state and every argument sequence, the
`sort` method leaves the deck's own internal card sequence unchanged and
returns a reordering (permutation) of the supplied argument; its body never
touches the private state. -/
theorem sortMethod_frame :
    ∀ deckState cards : List Card,
      (sortMethod deckState cards).1 = deckState
      ∧ (sortMethod deckState cards).2.Perm cards :=
  fun _ cards => ⟨rfl, List.perm_insertionSort cmpLe cards⟩

end Deck
